import Mathlib

set_option maxHeartbeats 1000000

/-!
Verification development for the `semanticsimilarity` repository.

The embedding covers `src/clustering/hpo_ensmallen.py` (the `HpoEnsmallen`
closure routines) and `src/semanticsimilarity/hpo_cluster_analyzer.py`
(the `HpoClusterAnalyzer` aggregation and testing routines).

Modelling conventions:
- HPO terms, patient ids and cluster ids are `String`s.
- The ensmallen graph pair (`self.graph`, `self.graph_reversed_edges`) is a
  record of neighbour functions: `parents` models
  `self.graph.get_node_neighbours_name_by_node_name` (edges point from a term
  to its parents) and `children` models the same call on
  `self.graph_reversed_edges`.
- Python's recursion in `get_descendents` is embedded with an explicit `fuel`
  bound on recursion depth; any fuel at least the number of graph nodes plus
  one reproduces the Python behaviour, because the visited-accumulator check
  (`if neighbor not in descendents`) lets each recursive call grow the
  accumulator by at least the recursion argument.
- The Python default argument `ancestors=[]` is a single mutable list object
  created once and shared by every call of `get_ancestors` that omits the
  argument; `ancestors += [..]` mutates it in place and all recursive calls
  return that same object.  A top-level call is therefore modelled as a
  function of the current content of that hidden list, and the content after
  the call is the returned list.  A fresh interpreter starts it at `[]`.
- The `defaultdict(int)` totals counter becomes a total function
  `String -> Nat` defaulting to `0`.  `_percluster_termcounts` however is a
  `defaultdict(dict)`: an inner `defaultdict(int)` table exists only for the
  clusters the patient loop initialised (lines 82-83); reading any other
  cluster in the report code makes the outer defaultdict manufacture a plain
  empty dict, whose term lookup raises a KeyError.  It is modelled as the
  pair of a counts function `termcounts` and the list `tc_init` of clusters
  whose inner table exists, with the report read `termcountRead` failing on
  uninitialised clusters.  (The outer defaultdict also inserts that empty
  plain dict on such a read; this is observable only by an `add_counts` call
  issued after report generation, a lifecycle no claim exercises, and is not
  modelled.)  Python `set`s that are only iterated for counting become
  first-occurrence-deduplicated lists; raised errors become `Except.error`.
-/

structure HpoGraph where
  nodes : List String
  parents : String → List String
  children : String → List String

/-- Modelled from the spec: `HpoEnsmallen.node_exists` is called by
`HpoClusterAnalyzer.add_counts` but its body is not among the provided
sources (it delegates to the external ensmallen graph).  The spec contract
is `nodeExists(term) -> bool`, answering "does this term exist" against the
ontology graph's node set. -/
def node_exists (g : HpoGraph) (t : String) : Bool := g.nodes.contains t

/-- Embedding of `HpoEnsmallen.get_descendents`: appends the queried term to
the accumulator, then for each neighbour in the edge-reversed graph that is
not yet in the accumulator, recurses.  `fuel` bounds recursion depth. -/
def get_descendents (g : HpoGraph) : Nat → String → List String → List String
  | 0, hpo_term, descendents => descendents ++ [hpo_term]
  | fuel + 1, hpo_term, descendents =>
    (g.children hpo_term).foldl
      (fun acc neighbor =>
        if neighbor ∈ acc then acc else get_descendents g fuel neighbor acc)
      (descendents ++ [hpo_term])

/-- Embedding of `HpoEnsmallen.get_ancestors`: appends the queried term to
the accumulator, then for each neighbour in the forward graph (the term's
parents) that is not yet in the accumulator it recurses into
`get_descendents` — exactly as the source does on line 29, so every
traversal step past the first hop follows child edges. -/
def get_ancestors (g : HpoGraph) (fuel : Nat) (hpo_term : String)
    (ancestors : List String) : List String :=
  (g.parents hpo_term).foldl
    (fun acc neighbor =>
      if neighbor ∈ acc then acc else get_descendents g fuel neighbor acc)
    (ancestors ++ [hpo_term])

/-- Modelled from the spec, for comparison with `get_ancestors`:
"ancestorsOf(term) -> set of Term — the reflexive-transitive closure of
parentsOf, including the starting term itself", with the traversal recursing
"strictly along the toward-parent edge direction at every step" and a
visited accumulator guaranteeing termination. -/
def ancestorsOfSpec (g : HpoGraph) : Nat → String → List String → List String
  | 0, t, visited => visited ++ [t]
  | fuel + 1, t, visited =>
    (g.parents t).foldl
      (fun acc n => if n ∈ acc then acc else ancestorsOfSpec g fuel n acc)
      (visited ++ [t])

/-- Ontology with parent edges A -> B and C -> B (so B has the two children
A and C); all three terms are graph nodes. -/
def gC1 : HpoGraph where
  nodes := ["A", "B", "C"]
  parents := fun t => if t = "A" then ["B"] else if t = "C" then ["B"] else []
  children := fun t => if t = "B" then ["A", "C"] else []

/-- C1: `get_ancestors` does not return the reflexive-transitive closure of
the parent relation.  On the ontology with parent edges A -> B and C -> B,
the code's ancestor list for A (fresh accumulator) is [A, B, C]: after the
first hop to the parent B, the recursion switches to `get_descendents` and
follows the toward-child edge B -> C, so the sibling C — which is not an
ancestor of A — is included.  The spec-side parent-only closure of A is
exactly [A, B]. -/
theorem C1_thm :
    get_ancestors gC1 10 "A" [] = ["A", "B", "C"] ∧
      ancestorsOfSpec gC1 10 "A" [] = ["A", "B"] ∧
      "C" ∈ get_ancestors gC1 10 "A" [] ∧
      "C" ∉ ancestorsOfSpec gC1 10 "A" [] := by
  refine ⟨rfl, rfl, ?_, ?_⟩ <;> decide

/-- Ontology with the single parent edge A -> B, plus the isolated node C. -/
def gC2 : HpoGraph where
  nodes := ["A", "B", "C"]
  parents := fun t => if t = "A" then ["B"] else []
  children := fun t => if t = "B" then ["A"] else []

/-- C2: the shared default-argument accumulator makes top-level
`get_ancestors` calls stateful.  In a fresh interpreter (accumulator `[]`),
`get_ancestors("C")` returns the set containing only C; after an intervening
call `get_ancestors("A")` on the same graph, calling `get_ancestors("C")`
again returns a list whose set of members is C, A, B — a different set for
the same term and the same graph, because the accumulator set up by the
earlier calls is retained and observable. -/
theorem C2_thm :
    get_ancestors gC2 10 "C" [] = ["C"] ∧
      get_ancestors gC2 10 "C"
          (get_ancestors gC2 10 "A" (get_ancestors gC2 10 "C" [])) =
        ["C", "A", "B", "C"] ∧
      "A" ∉ get_ancestors gC2 10 "C" [] ∧
      "A" ∈ get_ancestors gC2 10 "C"
          (get_ancestors gC2 10 "A" (get_ancestors gC2 10 "C" [])) := by
  refine ⟨rfl, rfl, ?_, ?_⟩ <;> decide

/-- Lexicographic code-point comparison of character lists (the order in
which `pandas.groupby` sorts string group keys). -/
def charListLe : List Char → List Char → Bool
  | [], _ => true
  | _ :: _, [] => false
  | a :: as, b :: bs => if a < b then true else if b < a then false else charListLe as bs

/-- Lexicographic code-point comparison of strings. -/
def strLe (a b : String) : Bool := charListLe a.data b.data

/-- Insertion of one string into a sorted list, for modelling the sorted
grouping order of `pandas.groupby` (which sorts group keys ascending). -/
def insertSorted (x : String) : List String → List String
  | [] => [x]
  | y :: ys => if strLe x y then x :: y :: ys else y :: insertSorted x ys

/-- Lexicographically ascending sort, modelling the key order in which
`patient_hpo_df.toPandas().groupby(ph_patient_id_col)` iterates patients. -/
def sortStrings (l : List String) : List String := l.foldr insertSorted []

/-- Values of one `groupby` group: the hpo ids of the rows carrying the given
patient id, in row order. -/
def groupVals (rows : List (String × String)) (pid : String) : List String :=
  (rows.filter (fun r => r.1 == pid)).map Prod.snd

/-- Adds an element to a list representing a Python `set` unless already
present (first-occurrence order). -/
def insertIfNew (l : List String) (x : String) : List String :=
  if x ∈ l then l else l ++ [x]

/-- State of the inner `for hpo_id in hpo_id_list` loop of
`HpoClusterAnalyzer.add_counts` (lines 92-99): the induced ancestor set, the
`_hpo_terms` set, the warnings emitted so far, and the content of the hidden
`get_ancestors` default accumulator. -/
structure TermLoopOut where
  induced : List String
  hpoTerms : List String
  warns : List String
  anc : List String

/-- One iteration of the term loop: the term is added to `_hpo_terms`; if it
exists in the graph it is added to the induced set and `get_ancestors`
(called with the shared default accumulator) is unioned in; otherwise a
warning naming the term is emitted and the term is skipped. -/
def termStep (g : HpoGraph) (fuel : Nat) (st : TermLoopOut) (hpo : String) :
    TermLoopOut :=
  if node_exists g hpo then
    { induced := (get_ancestors g fuel hpo st.anc).foldl insertIfNew
        (insertIfNew st.induced hpo),
      hpoTerms := insertIfNew st.hpoTerms hpo,
      warns := st.warns,
      anc := get_ancestors g fuel hpo st.anc }
  else
    { induced := st.induced,
      hpoTerms := insertIfNew st.hpoTerms hpo,
      warns := st.warns ++ [hpo],
      anc := st.anc }

/-- Embedding of the term loop of `add_counts` (lines 92-99), starting from
an empty induced set and empty warnings. -/
def processTerms (g : HpoGraph) (fuel : Nat) (hpoTerms anc : List String)
    (L : List String) : TermLoopOut :=
  L.foldl (termStep g fuel) ⟨[], hpoTerms, [], anc⟩

/-- Pointwise increment of a `defaultdict(int)` counter. -/
def bump (f : String → Nat) (c : String) : String → Nat :=
  fun c' => if c' = c then f c' + 1 else f c'

/-- Pointwise increment of one cell of the nested
`_percluster_termcounts[cluster][term]` counter. -/
def bump2 (f : String → String → Nat) (c t : String) : String → String → Nat :=
  fun c' t' => if c' = c ∧ t' = t then f c' t' + 1 else f c' t'

/-- Accumulated fields of an `HpoClusterAnalyzer`:
`_percluster_termcounts` (represented by the counts function `termcounts`
together with `tc_init`, the list of clusters for which the patient loop
created the inner `defaultdict(int)` table — for every other cluster the
outer `defaultdict(dict)` holds no table and a report read raises),
`_per_cluster_total_pt_count`, `_hpo_terms`, `_total_patients` and
`_clusters`. -/
structure AggState where
  termcounts : String → String → Nat
  tc_init : List String
  totals : String → Nat
  hpoTerms : List String
  totalPatients : Nat
  clusters : List String

/-- State of a freshly constructed `HpoClusterAnalyzer`. -/
def initAgg : AggState :=
  { termcounts := fun _ _ => 0, tc_init := [], totals := fun _ => 0,
    hpoTerms := [], totalPatients := 0, clusters := [] }

/-- Analyzer state together with the hidden `get_ancestors` default
accumulator and the warnings emitted so far. -/
structure PatAcc where
  st : AggState
  anc : List String
  warns : List String

/-- Embedding of one iteration of the patient loop of `add_counts`
(lines 77-102): look the patient up in `cluster_dict` (a missing patient
raises), increment the cluster's total, create the cluster's inner
term-count table if absent (lines 82-83), run the term loop over the
patient's grouped hpo ids, increment `_total_patients`, and increment the
cluster/term counter once for every member of the induced ancestor set. -/
def processPatient (g : HpoGraph) (fuel : Nat)
    (cluster_assignment patient_hpo : List (String × String))
    (acc : PatAcc) (pid : String) : Except String PatAcc :=
  match List.lookup pid cluster_assignment with
  | none => Except.error ("Could not find patient " ++ pid ++ " in cluster_assignment")
  | some cluster =>
    let out := processTerms g fuel acc.st.hpoTerms acc.anc (groupVals patient_hpo pid)
    Except.ok
      { st :=
          { termcounts := out.induced.foldl (fun f t => bump2 f cluster t) acc.st.termcounts,
            tc_init := insertIfNew acc.st.tc_init cluster,
            totals := bump acc.st.totals cluster,
            hpoTerms := out.hpoTerms,
            totalPatients := acc.st.totalPatients + 1,
            clusters := acc.st.clusters },
        anc := out.anc,
        warns := acc.warns ++ out.warns }

/-- Embedding of `HpoClusterAnalyzer.add_counts`: raise on duplicate patient
ids in the cluster assignment, replace `_clusters` with the distinct cluster
ids of this call's assignment, then process the patients occurring in the
annotation rows in sorted grouped order.  `anc0` is the content of the
hidden `get_ancestors` default accumulator when the call starts. -/
def add_counts (g : HpoGraph) (fuel : Nat) (anc0 : List String) (s : AggState)
    (patient_hpo cluster_assignment : List (String × String)) :
    Except String PatAcc :=
  if (cluster_assignment.map Prod.fst).eraseDups.length ≠
      (cluster_assignment.map Prod.fst).length then
    Except.error "cluster_assignment has duplicate rows for some patients"
  else
    (sortStrings (patient_hpo.map Prod.fst).eraseDups).foldlM
      (processPatient g fuel cluster_assignment patient_hpo)
      ⟨{ s with clusters := (cluster_assignment.map Prod.snd).eraseDups }, anc0, []⟩

/-- Annotation rows for C3: patient p1 carries term A, patient p2 carries
the isolated term C. -/
def rowsC3 : List (String × String) := [("p1", "A"), ("p2", "C")]

/-- Cluster assignment for C3: both patients in cluster cl. -/
def asgC3 : List (String × String) := [("p1", "cl"), ("p2", "cl")]

/-- First aggregation run of C3, from a fresh interpreter. -/
def runC3a : Except String PatAcc := add_counts gC2 10 [] initAgg rowsC3 asgC3

/-- Second aggregation run of C3 on the identical input, into a freshly
constructed aggregator, but with the `get_ancestors` default accumulator in
the state the first run left it. -/
def runC3b : Except String PatAcc :=
  match runC3a with
  | Except.ok r => add_counts gC2 10 r.anc initAgg rowsC3 asgC3
  | Except.error e => Except.error e

/-- C3: aggregating the same input twice into fresh aggregators does not
reproduce the counts.  With parent edge A -> B, isolated node C, and the two
patients p1:[A], p2:[C] in cluster cl, the first run records count 1 for
term C in cluster cl, but the second run records 2: the `get_ancestors`
default accumulator retained from the first run makes every later closure
report the union of all terms ever visited, so p1 also appears to carry C.
Totals agree (2 in both runs); the term counts differ. -/
theorem C3_thm :
    runC3a.map (fun r => r.st.termcounts "cl" "C") = Except.ok 1 ∧
      runC3b.map (fun r => r.st.termcounts "cl" "C") = Except.ok 2 ∧
      runC3a.map (fun r => r.st.totals "cl") = Except.ok 2 ∧
      runC3b.map (fun r => r.st.totals "cl") = Except.ok 2 := by
  refine ⟨?_, ?_, ?_, ?_⟩ <;> rfl

/-- Diamond ontology: X has the two parents P1 and P2, and both P1 and P2
have the single parent R. -/
def gC4 : HpoGraph where
  nodes := ["X", "P1", "P2", "R"]
  parents := fun t =>
    if t = "X" then ["P1", "P2"]
    else if t = "P1" then ["R"]
    else if t = "P2" then ["R"] else []
  children := fun t =>
    if t = "R" then ["P1", "P2"]
    else if t = "P1" then ["X"]
    else if t = "P2" then ["X"] else []

/-- C4 aggregation: one individual p1 annotated only with X, in cluster c. -/
def runC4 : Except String PatAcc :=
  add_counts gC4 10 [] initAgg [("p1", "X")] [("p1", "c")]

/-- C4: in the diamond ontology X -> {P1, P2} -> R, aggregating one
individual annotated only with X increments the count of the diamond top R
by 0, not by 1: `get_ancestors` switches to child-edge traversal after the
first hop, so from the parents P1 and P2 it steps back down to X and never
reaches R, even though R is in the spec-side parent closure of X. -/
theorem C4_thm :
    runC4.map (fun r => r.st.termcounts "c" "R") = Except.ok 0 ∧
      runC4.map (fun r => r.st.termcounts "c" "X") = Except.ok 1 ∧
      "R" ∈ ancestorsOfSpec gC4 10 "X" [] := by
  refine ⟨?_, ?_, ?_⟩
  · rfl
  · rfl
  · decide

/-- One row of the `do_chi2` report: the term, the per-cluster
(cluster, with, without, total) columns, the test result (`none` models the
four fields stat, p, dof and expected all being nan), and whether the
diagnostic warning was emitted. -/
structure Chi2Row (α : Type) where
  hpo_id : String
  perCluster : List (String × Int × Int × Int)
  result : Option α
  warned : Bool
deriving DecidableEq

/-- Read of one cluster's count for one term,
`self._percluster_termcounts[cluster][hpo_id]` (lines 121 and 159): the
outer `defaultdict(dict)` holds an inner `defaultdict(int)` only for the
clusters the patient loop initialised, and that inner table returns 0 for a
missing term; for any other cluster the outer defaultdict manufactures a
plain empty dict, whose term lookup raises a KeyError naming the term. -/
def termcountRead (s : AggState) (c t : String) : Except String Nat :=
  if c ∈ s.tc_init then Except.ok (s.termcounts c t)
  else Except.error ("KeyError: " ++ t)

/-- One cluster iteration of the report loops of `do_chi2` (lines 115-126)
and `do_fisher_exact` (lines 153-164): the cluster's total (a safe
`defaultdict(int)` read), the with count (the fallible term-count read) and
without = total - with, packaged as the row's per-cluster column. -/
def clusterCell (s : AggState) (hpo_id c : String) :
    Except String (String × Int × Int × Int) :=
  (termcountRead s c hpo_id).map
    (fun (w : Nat) =>
      (c, ((w : Int), (s.totals c : Int) - (w : Int), (s.totals c : Int))))

/-- The chi-square report row for one term on the execution path where every
per-cluster count read succeeds (the value Python computes when no KeyError
is raised): if no without-cell is nonzero, or (failing that) no with-cell is
nonzero, warn and record nan, otherwise apply the chi-square primitive.
`chi2fn` abstracts the external `scipy.stats.chi2_contingency` collaborator
on the two-row table. -/
def chi2RowPure {α : Type} (s : AggState) (chi2fn : List Int → List Int → α)
    (hpo_id : String) : Chi2Row α :=
  let withC : List Int := s.clusters.map (fun c => (s.termcounts c hpo_id : Int))
  let withoutC : List Int :=
    s.clusters.map (fun c => (s.totals c : Int) - (s.termcounts c hpo_id : Int))
  let perCluster := s.clusters.map (fun c =>
    (c, ((s.termcounts c hpo_id : Int),
         (s.totals c : Int) - (s.termcounts c hpo_id : Int),
         (s.totals c : Int))))
  if !(withoutC.any fun x => x != 0) then ⟨hpo_id, perCluster, none, true⟩
  else if !(withC.any fun x => x != 0) then ⟨hpo_id, perCluster, none, true⟩
  else ⟨hpo_id, perCluster, some (chi2fn withC withoutC), false⟩

/-- One loop body of `do_chi2`, building the report row for one term: the
per-cluster cells are built over the current `_clusters` (a KeyError from
the term-count read of an uninitialised cluster aborts); then if no
without-cell is nonzero, or (failing that) no with-cell is nonzero, warn and
record nan, otherwise apply the chi-square primitive. -/
def chi2Row {α : Type} (s : AggState) (chi2fn : List Int → List Int → α)
    (hpo_id : String) : Except String (Chi2Row α) :=
  (s.clusters.mapM (clusterCell s hpo_id)).map
    (fun perCluster =>
      let withC : List Int := perCluster.map (fun p => p.2.1)
      let withoutC : List Int := perCluster.map (fun p => p.2.2.1)
      if !(withoutC.any fun x => x != 0) then ⟨hpo_id, perCluster, none, true⟩
      else if !(withC.any fun x => x != 0) then ⟨hpo_id, perCluster, none, true⟩
      else ⟨hpo_id, perCluster, some (chi2fn withC withoutC), false⟩)

/-- Embedding of `HpoClusterAnalyzer.do_chi2`: one report row per term in
`_hpo_terms`; a KeyError raised while reading a cluster's term counts aborts
the whole call. -/
def do_chi2 {α : Type} (s : AggState) (chi2fn : List Int → List Int → α) :
    Except String (List (Chi2Row α)) :=
  s.hpoTerms.mapM (chi2Row s chi2fn)

/-- Modelled from the spec: `scipy.stats.fisher_exact` is an external
library primitive assumed to have fixed semantics; per the spec it "requires
exactly a 2×2 table" and raises a ValueError on any other shape.  `fisherfn`
abstracts the value it computes in the defined 2-by-2 case. -/
def fisher_exact {β : Type} (fisherfn : List Int → List Int → β)
    (table : List (List Int)) : Except String β :=
  match table with
  | [row1, row2] =>
    if row1.length = 2 ∧ row2.length = 2 then Except.ok (fisherfn row1 row2)
    else Except.error "ValueError: The input table must be of shape (2, 2)."
  | _ => Except.error "ValueError: The input table must be of shape (2, 2)."

/-- One row of the `do_fisher_exact` report. -/
structure FisherRow (β : Type) where
  hpo_id : String
  perCluster : List (String × Int × Int × Int)
  oddsrP : β
deriving DecidableEq

/-- One loop body of `do_fisher_exact`: identical per-cluster cell
construction to `do_chi2` (a KeyError from the term-count read of an
uninitialised cluster aborts, line 159); then the Fisher primitive is
applied unguarded, so an exception it raises propagates as well. -/
def fisherRowOf {β : Type} (s : AggState)
    (fisherfn : List Int → List Int → β) (hpo_id : String) :
    Except String (FisherRow β) :=
  (s.clusters.mapM (clusterCell s hpo_id)) >>= fun perCluster =>
    let withC : List Int := perCluster.map (fun p => p.2.1)
    let withoutC : List Int := perCluster.map (fun p => p.2.2.1)
    (fisher_exact fisherfn [withC, withoutC]).map
      (fun r => ⟨hpo_id, perCluster, r⟩)

/-- Embedding of `HpoClusterAnalyzer.do_fisher_exact`: one row per term in
`_hpo_terms`; a KeyError raised while reading a cluster's term counts, or an
exception raised by the Fisher primitive, aborts the whole call. -/
def do_fisher_exact {β : Type} (s : AggState)
    (fisherfn : List Int → List Int → β) : Except String (List (FisherRow β)) :=
  s.hpoTerms.mapM (fisherRowOf s fisherfn)

/-- C8 aggregation: three patients in three distinct clusters, each
annotated with the term A. -/
def runC8 : Except String PatAcc :=
  add_counts gC2 10 [] initAgg
    [("p1", "A"), ("p2", "A"), ("p3", "A")]
    [("p1", "c1"), ("p2", "c2"), ("p3", "c3")]

/-- Fisher report requested on the C8 state (the Fisher value abstracted as
the pair of table rows, the report projected to its row count). -/
def runC8fisher : Except String Nat :=
  match runC8 with
  | Except.ok r => (do_fisher_exact r.st (fun wc woc => (wc, woc))).map List.length
  | Except.error _ => Except.ok 0

/-- C8: with more than two clusters the Fisher-exact report does not surface
nan fields — it terminates with a thrown failure.  After aggregating three
patients into three clusters, the analyzer holds three clusters, and
`do_fisher_exact` propagates the ValueError that the 2-by-2-only Fisher
primitive raises on the 2-by-3 table instead of producing any result row. -/
theorem C8_thm :
    runC8.map (fun r => r.st.clusters.length) = Except.ok 3 ∧
      runC8fisher = Except.error "ValueError: The input table must be of shape (2, 2)." := by
  refine ⟨?_, ?_⟩ <;> rfl

/-- One row of the covariate report, abstracted to the fields the Bonferroni
block touches: the covariate name and the p column.  `none` models a float
nan p-value (nan times n is nan, and the capping lambda keeps nan). -/
structure CovRow where
  covariate : String
  p : Option ℚ
deriving DecidableEq

/-- Embedding of the tail of `do_chi_square_on_covariates` (lines 255-260):
if `bonferroni` is set, first multiply every p-value by the number of result
rows, then replace every value not below 1 (and not nan) by 1. -/
def bonferroni_adjust (bonferroni : Bool) (results : List CovRow) : List CovRow :=
  if bonferroni then
    let step1 := results.map
      (fun r => { r with p := r.p.map (fun x => x * (results.length : ℚ)) })
    step1.map (fun r => { r with p := r.p.map (fun x => if x < 1 then x else 1) })
  else results

/-- Capping at 1 from above is exactly taking the minimum with 1. -/
theorem cap_eq_min (y : ℚ) : (if y < 1 then y else 1) = min 1 y := by
  rcases lt_or_le y 1 with h | h
  · rw [if_pos h, min_eq_right h.le]
  · rw [if_neg (not_lt.2 h), min_eq_left h]

/-- C9: with Bonferroni enabled and N the number of covariates tested (the
number of result rows), every non-nan p-value in the output equals
min(1, raw_p * N), and every nan p-value is left nan. -/
theorem C9_thm (results : List CovRow) :
    bonferroni_adjust true results =
      results.map (fun r =>
        { r with p := r.p.map (fun x => min 1 (x * (results.length : ℚ))) }) := by
  simp only [bonferroni_adjust, if_true, List.map_map]
  refine List.map_congr_left ?_
  intro r _
  cases hp : r.p with
  | none => simp [Function.comp, hp]
  | some x => simp [Function.comp, hp, cap_eq_min]

/-- A successful `cluster_dict` lookup returns one of the assignment's
cluster values. -/
theorem lookup_mem :
    ∀ (l : List (String × String)) (k v : String),
      List.lookup k l = some v → v ∈ l.map Prod.snd := by
  intro l
  induction l with
  | nil => intro k v h; simp [List.lookup] at h
  | cons p ps ih =>
    intro k v h
    obtain ⟨a, b⟩ := p
    by_cases hk : (k == a) = true
    · simp [List.lookup, hk] at h
      simp [h]
    · simp [List.lookup, hk] at h
      exact List.mem_cons_of_mem _ (ih k v h)

/-- Inserting into a sorted list is a permutation of consing. -/
theorem insertSorted_perm (x : String) (l : List String) :
    (insertSorted x l).Perm (x :: l) := by
  induction l with
  | nil => exact List.Perm.refl _
  | cons y ys ih =>
    rw [insertSorted]
    by_cases h : strLe x y
    · rw [if_pos h]
    · rw [if_neg h]
      exact (ih.cons y).trans (List.Perm.swap x y ys)

/-- The grouped-iteration sort is a permutation. -/
theorem sortStrings_perm (l : List String) : (sortStrings l).Perm l := by
  induction l with
  | nil => exact List.Perm.refl _
  | cons x xs ih => exact (insertSorted_perm x (sortStrings xs)).trans (ih.cons x)

/-- Characterisation of a successful `processPatient` step: the patient has
a cluster, the cluster total is bumped, the cluster list is untouched, and
the cluster/term counter is bumped once per member of the induced set. -/
theorem processPatient_ok_effects (g : HpoGraph) (fuel : Nat)
    (asg rows : List (String × String)) (acc r : PatAcc) (pid : String)
    (h : processPatient g fuel asg rows acc pid = Except.ok r) :
    ∃ cluster, List.lookup pid asg = some cluster ∧
      r.st.totals = bump acc.st.totals cluster ∧
      r.st.clusters = acc.st.clusters ∧
      r.st.termcounts =
        (processTerms g fuel acc.st.hpoTerms acc.anc
            (groupVals rows pid)).induced.foldl
          (fun f t => bump2 f cluster t) acc.st.termcounts := by
  cases hl : List.lookup pid asg with
  | none => simp [processPatient, hl] at h
  | some cluster =>
    simp only [processPatient, hl, Except.ok.injEq] at h
    exact ⟨cluster, rfl, by rw [← h], by rw [← h], by rw [← h]⟩

/-- Bind on a successful Except computation. -/
theorem except_bind_ok {γ δ : Type} (a : γ) (f : γ → Except String δ) :
    (Except.ok a >>= f) = f a := rfl

/-- Bind on a failed Except computation. -/
theorem except_bind_error {γ δ : Type} (e : String) (f : γ → Except String δ) :
    ((Except.error e : Except String γ) >>= f) = Except.error e := rfl

/-- Totals after folding the patient loop: one increment per processed
patient id, counted at the cluster the assignment gives that id. -/
theorem foldlM_totals (g : HpoGraph) (fuel : Nat)
    (asg rows : List (String × String)) :
    ∀ (pids : List String) (acc r : PatAcc),
      List.foldlM (processPatient g fuel asg rows) acc pids = Except.ok r →
      ∀ c, r.st.totals c = acc.st.totals c +
        (pids.filter (fun p => List.lookup p asg == some c)).length := by
  intro pids
  induction pids with
  | nil =>
    intro acc r h c
    simp only [List.foldlM_nil] at h
    cases h
    simp
  | cons p ps ih =>
    intro acc r h c
    rw [List.foldlM_cons] at h
    cases hp : processPatient g fuel asg rows acc p with
    | error e => rw [hp, except_bind_error] at h; cases h
    | ok acc1 =>
      rw [hp, except_bind_ok] at h
      have hr := ih acc1 r h c
      obtain ⟨cluster, hcl, htot, -, -⟩ :=
        processPatient_ok_effects g fuel asg rows acc acc1 p hp
      rw [List.filter_cons, hcl, hr, htot]
      by_cases hc : cluster = c
      · subst hc
        simp [bump]
        omega
      · have hne : ((some cluster : Option String) == some c) = false := by
          simp [hc]
        rw [hne]
        simp only [Bool.false_eq_true, if_false, bump]
        rw [if_neg (fun hh => hc hh.symm)]

/-- C5: after a successful `add_counts` into a fresh analyzer, every
cluster's total equals the number of distinct patient ids that occur in the
annotation rows and are assigned to that cluster — one increment per
individual, even when the individual contributes several annotation rows. -/
theorem C5_thm (g : HpoGraph) (fuel : Nat) (anc0 : List String)
    (patient_hpo cluster_assignment : List (String × String)) (r : PatAcc)
    (h : add_counts g fuel anc0 initAgg patient_hpo cluster_assignment = Except.ok r)
    (c : String) :
    r.st.totals c =
      ((patient_hpo.map Prod.fst).eraseDups.filter
        (fun p => List.lookup p cluster_assignment == some c)).length := by
  unfold add_counts at h
  split at h
  · cases h
  · have ht := foldlM_totals g fuel cluster_assignment patient_hpo _ _ _ h c
    rw [ht]
    show 0 + _ = _
    rw [Nat.zero_add]
    exact List.Perm.length_eq
      ((sortStrings_perm ((patient_hpo.map Prod.fst).eraseDups)).filter
        (fun p => List.lookup p cluster_assignment == some c))

/-- C5 witness aggregation: p1 contributes two annotation rows, p2 one; p1
is assigned to cluster c1 and p2 to cluster c2. -/
def runC5 : Except String PatAcc :=
  add_counts gC2 10 [] initAgg
    [("p1", "A"), ("p1", "B"), ("p2", "A")]
    [("p1", "c1"), ("p2", "c2")]

/-- Result record of the C5 witness aggregation. -/
def resC5 : PatAcc := runC5.toOption.getD ⟨initAgg, [], []⟩

/-- Witness for C5 at a concrete input: the aggregation succeeds, and
cluster c1's total is the filtered distinct-patient count, namely 1, even
though p1 contributed two rows. -/
theorem C5_thm_witness :
    add_counts gC2 10 [] initAgg
        [("p1", "A"), ("p1", "B"), ("p2", "A")]
        [("p1", "c1"), ("p2", "c2")] = Except.ok resC5 ∧
      resC5.st.totals "c1" = 1 := by
  have h : add_counts gC2 10 [] initAgg
      [("p1", "A"), ("p1", "B"), ("p2", "A")]
      [("p1", "c1"), ("p2", "c2")] = Except.ok resC5 := by rfl
  refine ⟨h, ?_⟩
  rw [C5_thm gC2 10 [] _ _ resC5 h "c1"]
  rfl

/-- Warnings accumulated by the term loop: exactly the input terms missing
from the ontology graph, in order, appended to the preexisting warnings. -/
theorem termStep_foldl_warns (g : HpoGraph) (fuel : Nat) :
    ∀ (L : List String) (st : TermLoopOut),
      (L.foldl (termStep g fuel) st).warns =
        st.warns ++ L.filter (fun t => !(node_exists g t)) := by
  intro L
  induction L with
  | nil => intro st; simp
  | cons t ts ih =>
    intro st
    rw [List.foldl_cons, ih, List.filter_cons]
    by_cases h : node_exists g t
    · simp [termStep, h]
    · have h' : node_exists g t = false := by simpa using h
      simp [termStep, h', List.append_assoc]

/-- The induced set and the shared ancestor accumulator computed by the term
loop ignore the terms missing from the graph: running the loop on the
known-term sublist produces the same induced set and the same accumulator. -/
theorem termStep_foldl_filter (g : HpoGraph) (fuel : Nat) :
    ∀ (L : List String) (st₁ st₂ : TermLoopOut),
      st₁.induced = st₂.induced → st₁.anc = st₂.anc →
      (((L.filter (fun t => node_exists g t)).foldl (termStep g fuel) st₁).induced =
          (L.foldl (termStep g fuel) st₂).induced ∧
        ((L.filter (fun t => node_exists g t)).foldl (termStep g fuel) st₁).anc =
          (L.foldl (termStep g fuel) st₂).anc) := by
  intro L
  induction L with
  | nil => intro st₁ st₂ h1 h2; simp [h1, h2]
  | cons t ts ih =>
    intro st₁ st₂ h1 h2
    by_cases h : node_exists g t
    · rw [List.filter_cons, if_pos (by simpa using h), List.foldl_cons, List.foldl_cons]
      exact ih (termStep g fuel st₁ t) (termStep g fuel st₂ t)
        (by simp [termStep, h, h1, h2]) (by simp [termStep, h, h2])
    · have h' : node_exists g t = false := by simpa using h
      rw [List.filter_cons, if_neg (by simp [h']), List.foldl_cons]
      exact ih st₁ (termStep g fuel st₂ t)
        (by simp [termStep, h', h1]) (by simp [termStep, h', h2])

/-- C6: processing one patient whose annotation list may contain terms
missing from the ontology graph never fails; it emits one warning per
missing term (in order), the missing terms contribute nothing to the closure
expansion (the induced set and ancestor accumulator equal those of the
known-term sublist), and the patient is counted in its cluster total and in
the total patient count exactly as a patient with only known terms. -/
theorem C6_thm (g : HpoGraph) (fuel : Nat)
    (asg rows : List (String × String)) (acc : PatAcc) (pid c : String)
    (h : List.lookup pid asg = some c) :
    processPatient g fuel asg rows acc pid = Except.ok
      { st :=
          { termcounts :=
              (processTerms g fuel acc.st.hpoTerms acc.anc
                  ((groupVals rows pid).filter (fun t => node_exists g t))).induced.foldl
                (fun f t => bump2 f c t) acc.st.termcounts,
            tc_init := insertIfNew acc.st.tc_init c,
            totals := bump acc.st.totals c,
            hpoTerms :=
              (processTerms g fuel acc.st.hpoTerms acc.anc (groupVals rows pid)).hpoTerms,
            totalPatients := acc.st.totalPatients + 1,
            clusters := acc.st.clusters },
        anc :=
          (processTerms g fuel acc.st.hpoTerms acc.anc
            ((groupVals rows pid).filter (fun t => node_exists g t))).anc,
        warns := acc.warns ++ (groupVals rows pid).filter (fun t => !(node_exists g t)) } := by
  have hf := termStep_foldl_filter g fuel (groupVals rows pid)
    ⟨[], acc.st.hpoTerms, [], acc.anc⟩ ⟨[], acc.st.hpoTerms, [], acc.anc⟩ rfl rfl
  have hw := termStep_foldl_warns g fuel (groupVals rows pid)
    ⟨[], acc.st.hpoTerms, [], acc.anc⟩
  simp only [processPatient, h]
  unfold processTerms
  rw [hf.1, hf.2, hw]
  simp

/-- Witness input for C6: patient p1 carries the known term A and the
unknown term ZZ. -/
def accC6 : PatAcc := ⟨initAgg, [], []⟩

/-- Witness for C6 at a concrete input: the lookup hypothesis holds, the
call succeeds with a warning naming exactly the unknown term ZZ, the
patient is still counted (total 1, patient count 1), and ZZ is not counted
while A and its ancestor B are. -/
theorem C6_thm_witness :
    List.lookup "p1" [("p1", "c1")] = some "c1" ∧
      (processPatient gC2 10 [("p1", "c1")] [("p1", "A"), ("p1", "ZZ")] accC6 "p1").map
          (fun r => (r.warns, r.st.totals "c1", r.st.totalPatients,
            r.st.termcounts "c1" "ZZ", r.st.termcounts "c1" "B")) =
        Except.ok (["ZZ"], 1, 1, 0, 1) := by
  refine ⟨rfl, ?_⟩
  rw [C6_thm gC2 10 [("p1", "c1")] [("p1", "A"), ("p1", "ZZ")] accC6 "p1" "c1" rfl]
  rfl

/-- A mapped any-nonzero test is false exactly when the mapped value is zero
at every list element. -/
theorem any_ne_eq_false_iff (l : List String) (f : String → Int) :
    ((l.map f).any (fun x => x != 0) = false) ↔ ∀ c ∈ l, f c = 0 := by
  simp [List.any_eq_false]

/-- Case analysis of one pure chi-square report row: its term, when it
records nan, and that the diagnostic warning is emitted exactly then. -/
theorem chi2RowPure_cases {α : Type} (s : AggState)
    (chi2fn : List Int → List Int → α) (t : String) :
    (chi2RowPure s chi2fn t).hpo_id = t ∧
      ((chi2RowPure s chi2fn t).result = none ↔
        ¬((s.clusters.map
              (fun c => (s.totals c : Int) - (s.termcounts c t : Int))).any
              (fun x => x != 0) = true ∧
          (s.clusters.map (fun c => (s.termcounts c t : Int))).any
              (fun x => x != 0) = true)) ∧
      (chi2RowPure s chi2fn t).warned =
        ((chi2RowPure s chi2fn t).result).isNone := by
  unfold chi2RowPure
  by_cases h1 : (s.clusters.map
      (fun c => (s.totals c : Int) - (s.termcounts c t : Int))).any
      (fun x => x != 0) <;>
    by_cases h2 : (s.clusters.map (fun c => (s.termcounts c t : Int))).any
      (fun x => x != 0) <;>
    simp [h1, h2]

/-- A successful monadic map over Except produces only outputs that some
input produced. -/
theorem mapM_ok_mem {γ δ : Type} (f : γ → Except String δ) :
    ∀ (l : List γ) (out : List δ), l.mapM f = Except.ok out →
      ∀ b ∈ out, ∃ a ∈ l, f a = Except.ok b := by
  intro l
  induction l with
  | nil =>
    intro out h b hb
    simp only [List.mapM_nil] at h
    cases h
    simp at hb
  | cons a as ih =>
    intro out h b hb
    rw [List.mapM_cons] at h
    cases hfa : f a with
    | error e => rw [hfa, except_bind_error] at h; cases h
    | ok d =>
      rw [hfa, except_bind_ok] at h
      cases has : as.mapM f with
      | error e => rw [has, except_bind_error] at h; cases h
      | ok ds =>
        rw [has, except_bind_ok] at h
        simp only [pure, Except.pure, Except.ok.injEq] at h
        subst h
        rcases List.mem_cons.1 hb with rfl | hb
        · exact ⟨a, List.mem_cons_self a as, hfa⟩
        · obtain ⟨a1, ha1, hfa1⟩ := ih ds has b hb
          exact ⟨a1, List.mem_cons_of_mem a ha1, hfa1⟩

/-- A successful monadic map over Except whose element results are uniquely
determined equals the plain map. -/
theorem mapM_ok_eq_map {γ δ : Type} (f : γ → Except String δ) (gfun : γ → δ)
    (hf : ∀ a b, f a = Except.ok b → b = gfun a) :
    ∀ (l : List γ) (out : List δ),
      l.mapM f = Except.ok out → out = l.map gfun := by
  intro l
  induction l with
  | nil =>
    intro out h
    simp only [List.mapM_nil] at h
    cases h
    rfl
  | cons a as ih =>
    intro out h
    rw [List.mapM_cons] at h
    cases hfa : f a with
    | error e => rw [hfa, except_bind_error] at h; cases h
    | ok d =>
      rw [hfa, except_bind_ok] at h
      cases has : as.mapM f with
      | error e => rw [has, except_bind_error] at h; cases h
      | ok ds =>
        rw [has, except_bind_ok] at h
        simp only [pure, Except.pure, Except.ok.injEq] at h
        subst h
        rw [List.map_cons, ← ih ds has, ← hf a d hfa]

/-- A successful per-cluster cell read determines the cell completely: its
with count is the stored term count. -/
theorem clusterCell_ok (s : AggState) (t c : String)
    (b : String × Int × Int × Int) (h : clusterCell s t c = Except.ok b) :
    b = (c, ((s.termcounts c t : Int),
         (s.totals c : Int) - (s.termcounts c t : Int), (s.totals c : Int))) := by
  by_cases hc : c ∈ s.tc_init
  · have hval : clusterCell s t c = Except.ok
        (c, ((s.termcounts c t : Int),
         (s.totals c : Int) - (s.termcounts c t : Int), (s.totals c : Int))) := by
      unfold clusterCell termcountRead
      rw [if_pos hc]
      rfl
    rw [hval] at h
    exact (Except.ok.inj h).symm
  · have hval : clusterCell s t c = Except.error ("KeyError: " ++ t) := by
      unfold clusterCell termcountRead
      rw [if_neg hc]
      rfl
    rw [hval] at h
    cases h

/-- When the per-term chi-square computation succeeds, the produced row is
exactly the pure row value. -/
theorem chi2Row_ok {α : Type} (s : AggState) (chi2fn : List Int → List Int → α)
    (t : String) (row : Chi2Row α) (h : chi2Row s chi2fn t = Except.ok row) :
    row = chi2RowPure s chi2fn t := by
  unfold chi2Row at h
  cases hm : s.clusters.mapM (clusterCell s t) with
  | error e => rw [hm] at h; simp [Except.map] at h
  | ok pairs =>
    rw [hm] at h
    have hp : pairs = s.clusters.map (fun c =>
        (c, ((s.termcounts c t : Int),
             (s.totals c : Int) - (s.termcounts c t : Int), (s.totals c : Int)))) :=
      mapM_ok_eq_map (clusterCell s t) _
        (fun a b hb => clusterCell_ok s t a b hb) _ _ hm
    simp only [Except.map, Except.ok.injEq] at h
    rw [← h, hp]
    unfold chi2RowPure
    dsimp only
    simp [List.map_map, Function.comp_def]

/-- C7 (amended): when the chi-square report call completes without a thrown
failure, a report row records nan — and emits the diagnostic warning —
exactly when every per-cluster without count is zero (the term is in all
individuals of all clusters) or every per-cluster with count is zero (the
term is absent from all clusters); in every other case the chi-square
primitive is applied.  Without that proviso the call can instead terminate
with a KeyError for a cluster whose term-count table was never initialised
by the patient loop. -/
theorem C7_thm {α : Type} (s : AggState) (chi2fn : List Int → List Int → α)
    (rows : List (Chi2Row α)) (row : Chi2Row α)
    (hok : do_chi2 s chi2fn = Except.ok rows) (hrow : row ∈ rows) :
    (row.result = none ↔
      ((∀ c ∈ s.clusters,
          (s.totals c : Int) - (s.termcounts c row.hpo_id : Int) = 0) ∨
        ∀ c ∈ s.clusters, s.termcounts c row.hpo_id = 0)) ∧
      row.warned = row.result.isNone := by
  obtain ⟨t, ht, hct⟩ := mapM_ok_mem _ _ _ hok row hrow
  have hr := chi2Row_ok s chi2fn t row hct
  subst hr
  obtain ⟨hid, hres, hwarn⟩ := chi2RowPure_cases s chi2fn t
  rw [hid]
  refine ⟨?_, hwarn⟩
  rw [hres, not_and_or, Bool.not_eq_true, Bool.not_eq_true,
    any_ne_eq_false_iff, any_ne_eq_false_iff]
  simp [Int.natCast_eq_zero]

/-- Analyzer state for the C7 witness: one observed term t carried by no
individual, two clusters with one individual each, both clusters' term-count
tables initialised by the patient loop. -/
def sC7 : AggState :=
  { termcounts := fun _ _ => 0, tc_init := ["c1", "c2"], totals := fun _ => 1,
    hpoTerms := ["t"], totalPatients := 2, clusters := ["c1", "c2"] }

/-- Chi-square report rows of the C7 witness state. -/
def rowsC7 : List (Chi2Row Nat) :=
  (do_chi2 sC7 (fun _ _ => (0 : Nat))).toOption.getD []

/-- First report row of the C7 witness state. -/
def rowC7 : Chi2Row Nat := rowsC7.headD ⟨"", [], none, false⟩

/-- Witness for C7 at a concrete state: the report call succeeds, the row
for term t is among its rows, and its warning flag coincides with its result
being nan. -/
theorem C7_thm_witness :
    do_chi2 sC7 (fun _ _ => (0 : Nat)) = Except.ok rowsC7 ∧
      rowC7 ∈ rowsC7 ∧
      rowC7.warned = (rowC7.result).isNone := by
  have hok : do_chi2 sC7 (fun _ _ => (0 : Nat)) = Except.ok rowsC7 := by rfl
  have hmem : rowC7 ∈ rowsC7 := by decide
  exact ⟨hok, hmem, (C7_thm sC7 (fun _ _ => (0 : Nat)) rowsC7 rowC7 hok hmem).2⟩

/-- C7 counterexample input: the assignment places p1 in cluster c1 and p2
in cluster c2, but only p1 has an annotation row, and it carries the term ZZ
which is absent from the ontology graph. -/
def runC7x : Except String PatAcc :=
  add_counts gC2 10 [] initAgg [("p1", "ZZ")] [("p1", "c1"), ("p2", "c2")]

/-- Analyzer state left by the C7 counterexample aggregation. -/
def resC7x : PatAcc := runC7x.toOption.getD ⟨initAgg, [], []⟩

/-- C7 counterexample: the aggregation succeeds, records clusters c1 and c2
and the observed term ZZ, but initialises a term-count table only for c1 —
cluster c2 never had an annotated patient processed.  The term ZZ is absent
from all clusters (its only readable with count is 0), which is a class in
which the claim promises a nan row with a diagnostic and no thrown failure;
yet `do_chi2` terminates with the KeyError raised by reading c2's missing
table, and records nothing. -/
theorem C7_counterexample :
    runC7x = Except.ok resC7x ∧
      resC7x.st.clusters = ["c1", "c2"] ∧
      resC7x.st.hpoTerms = ["ZZ"] ∧
      resC7x.st.tc_init = ["c1"] ∧
      termcountRead resC7x.st "c1" "ZZ" = Except.ok 0 ∧
      do_chi2 resC7x.st (fun _ _ => (0 : Nat)) =
        Except.error "KeyError: ZZ" := by
  refine ⟨?_, ?_, ?_, ?_, ?_, ?_⟩ <;> rfl

/-- The per-cluster columns of a pure chi-square report row are keyed
exactly by the analyzer's current cluster list. -/
theorem chi2RowPure_perCluster {α : Type} (s : AggState)
    (chi2fn : List Int → List Int → α) (t : String) :
    (chi2RowPure s chi2fn t).perCluster.map Prod.fst = s.clusters := by
  unfold chi2RowPure
  dsimp only
  split
  · simp [List.map_map, Function.comp_def]
  · split <;> simp [List.map_map, Function.comp_def]

/-- The per-cluster columns of a successful Fisher report row are keyed
exactly by the analyzer's current cluster list. -/
theorem fisherRowOf_perCluster {β : Type} (s : AggState)
    (fisherfn : List Int → List Int → β) (t : String) (row : FisherRow β)
    (h : fisherRowOf s fisherfn t = Except.ok row) :
    row.perCluster.map Prod.fst = s.clusters := by
  unfold fisherRowOf at h
  cases hm : s.clusters.mapM (clusterCell s t) with
  | error e => rw [hm, except_bind_error] at h; cases h
  | ok pairs =>
    rw [hm, except_bind_ok] at h
    have hp : pairs = s.clusters.map (fun c =>
        (c, ((s.termcounts c t : Int),
             (s.totals c : Int) - (s.termcounts c t : Int), (s.totals c : Int)))) :=
      mapM_ok_eq_map (clusterCell s t) _
        (fun a b hb => clusterCell_ok s t a b hb) _ _ hm
    dsimp only at h
    unfold fisher_exact at h
    dsimp only at h
    split at h
    · simp only [Except.map, Except.ok.injEq] at h
      rw [← h, hp]
      simp [List.map_map, Function.comp_def]
    · simp [Except.map] at h

/-- Folding cluster/term bumps at one cluster leaves every other cluster's
counters unchanged. -/
theorem bump2_foldl_other (cluster : String) :
    ∀ (l : List String) (f : String → String → Nat) (c t : String),
      c ≠ cluster →
      (l.foldl (fun f2 u => bump2 f2 cluster u) f) c t = f c t := by
  intro l
  induction l with
  | nil => intro f c t h; rfl
  | cons u us ih =>
    intro f c t h
    rw [List.foldl_cons, ih _ c t h]
    simp [bump2, h]

/-- Folding the patient loop preserves the cluster list and the counters of
every cluster that the assignment never mentions. -/
theorem foldlM_untouched (g : HpoGraph) (fuel : Nat)
    (asg rows : List (String × String)) :
    ∀ (pids : List String) (acc r : PatAcc),
      List.foldlM (processPatient g fuel asg rows) acc pids = Except.ok r →
      r.st.clusters = acc.st.clusters ∧
        ∀ c, c ∉ asg.map Prod.snd →
          r.st.totals c = acc.st.totals c ∧
            ∀ t, r.st.termcounts c t = acc.st.termcounts c t := by
  intro pids
  induction pids with
  | nil =>
    intro acc r h
    simp only [List.foldlM_nil] at h
    cases h
    exact ⟨rfl, fun c _ => ⟨rfl, fun t => rfl⟩⟩
  | cons p ps ih =>
    intro acc r h
    rw [List.foldlM_cons] at h
    cases hp : processPatient g fuel asg rows acc p with
    | error e => rw [hp, except_bind_error] at h; cases h
    | ok acc1 =>
      rw [hp, except_bind_ok] at h
      obtain ⟨hcl, hrest⟩ := ih acc1 r h
      obtain ⟨cluster, hlook, htot, hclp, htc⟩ :=
        processPatient_ok_effects g fuel asg rows acc acc1 p hp
      refine ⟨hcl.trans hclp, fun c hc => ?_⟩
      have hne : c ≠ cluster := fun hcc => hc (hcc ▸ lookup_mem asg p cluster hlook)
      obtain ⟨ht1, ht2⟩ := hrest c hc
      refine ⟨?_, fun t => ?_⟩
      · rw [ht1, htot]
        simp [bump, hne]
      · rw [ht2 t, htc]
        exact bump2_foldl_other cluster _ acc.st.termcounts c t hne

/-- C10: after every successful `add_counts`, the recorded cluster list is
exactly the distinct cluster ids of that call's assignment (whatever was
recorded before), the chi-square and Fisher reports key their per-cluster
columns by exactly that list, and the totals and term counts of clusters
mentioned only by earlier batches remain stored unchanged. -/
theorem C10_thm {α β : Type} (chi2fn : List Int → List Int → α)
    (fisherfn : List Int → List Int → β) (g : HpoGraph) (fuel : Nat)
    (anc0 : List String) (s : AggState) (rows asg : List (String × String))
    (r : PatAcc) (h : add_counts g fuel anc0 s rows asg = Except.ok r) :
    r.st.clusters = (asg.map Prod.snd).eraseDups ∧
      (∀ rows1, do_chi2 r.st chi2fn = Except.ok rows1 →
        ∀ row ∈ rows1,
          row.perCluster.map Prod.fst = (asg.map Prod.snd).eraseDups) ∧
      (∀ rows2, do_fisher_exact r.st fisherfn = Except.ok rows2 →
        ∀ row ∈ rows2,
          row.perCluster.map Prod.fst = (asg.map Prod.snd).eraseDups) ∧
      ∀ c, c ∉ asg.map Prod.snd →
        r.st.totals c = s.totals c ∧
          ∀ t, r.st.termcounts c t = s.termcounts c t := by
  unfold add_counts at h
  split at h
  · cases h
  · obtain ⟨hcl, hrest⟩ := foldlM_untouched g fuel asg rows _ _ _ h
    refine ⟨hcl, ?_, ?_, hrest⟩
    · intro rows1 hr1 row hrow
      obtain ⟨t, ht, hct⟩ := mapM_ok_mem _ _ _ hr1 row hrow
      rw [chi2Row_ok r.st chi2fn t row hct, chi2RowPure_perCluster]
      exact hcl
    · intro rows2 hr2 row hrow
      obtain ⟨t, ht, hft⟩ := mapM_ok_mem _ _ _ hr2 row hrow
      rw [fisherRowOf_perCluster r.st fisherfn t row hft]
      exact hcl

/-- First C10 witness batch: patient p1 (term A) assigned to cluster cOld. -/
def runC10a : Except String PatAcc :=
  add_counts gC2 10 [] initAgg [("p1", "A")] [("p1", "cOld")]

/-- Result of the first C10 witness batch. -/
def resC10a : PatAcc := runC10a.toOption.getD ⟨initAgg, [], []⟩

/-- Second C10 witness batch, on the analyzer state the first one left:
patient p2 (term A) assigned to cluster cNew. -/
def runC10b : Except String PatAcc :=
  add_counts gC2 10 resC10a.anc resC10a.st [("p2", "A")] [("p2", "cNew")]

/-- Result of the second C10 witness batch. -/
def resC10b : PatAcc := runC10b.toOption.getD ⟨initAgg, [], []⟩

/-- Witness for C10 at a concrete two-batch scenario: the second call
succeeds, the recorded cluster list becomes exactly the second batch's
cluster cNew, while cOld's total and its count for term A remain stored
unchanged (both 1 from the first batch). -/
theorem C10_thm_witness :
    add_counts gC2 10 resC10a.anc resC10a.st [("p2", "A")] [("p2", "cNew")] =
        Except.ok resC10b ∧
      resC10b.st.clusters = ["cNew"] ∧
      resC10b.st.totals "cOld" = resC10a.st.totals "cOld" ∧
      resC10b.st.termcounts "cOld" "A" = resC10a.st.termcounts "cOld" "A" ∧
      resC10a.st.totals "cOld" = 1 ∧
      resC10a.st.termcounts "cOld" "A" = 1 := by
  have h : add_counts gC2 10 resC10a.anc resC10a.st [("p2", "A")] [("p2", "cNew")] =
      Except.ok resC10b := by rfl
  have main := C10_thm (fun _ _ => (0 : Nat)) (fun _ _ => (0 : Nat)) gC2 10
    resC10a.anc resC10a.st [("p2", "A")] [("p2", "cNew")] resC10b h
  refine ⟨h, main.1.trans (by rfl), ?_, ?_, by rfl, by rfl⟩
  · exact (main.2.2.2 "cOld" (by decide)).1
  · exact (main.2.2.2 "cOld" (by decide)).2 "A"
